import Mathlib

/-!
Verification of the live-migration orchestration core of the vdsm
repository against its natural-language specification.

The migration module itself (`vdsm/virt/migration.py`) is not among the
provided source files; only its test suite (`src/tests/vmmigration_test.py`)
is.  Definitions taken verbatim from code present under `src/` say so in
their doc comment; definitions for the missing module are modelled from the
spec and carry a doc comment starting with `Modelled from the spec:`.
-/

namespace Vdsm

/-! ## Downtime schedule -/

/-- Modelled from the spec: `migration.exponential_downtime(downtime, steps)`
is not under `src/`.  Spec §4.2 fixes only the observable contract ("the
algorithm, not its exact source formula, is the specification target — any
geometric catch-up formula satisfying these properties is conformant"):
exactly `steps` values, strictly positive (floor 1), non-decreasing, last
value exactly `downtimeTarget`, first value within one average-step-tenth of
the linear ramp's first value, and every later value at most the linear
ramp's value at the same index.  We model a base-2 geometric catch-up: the
schedule starts at one above the average step (`downtime / steps + 1`, the
spec's floor for the first throttle point) and climbs geometrically
(`downtime / 2 ^ (steps - 1 - i)`) to reach `downtime` exactly at the last
step.  `steps ≤ 1` yields the single value `downtime` (spec: "a schedule
with steps == 1 is valid: a single value equal to the target"). -/
def exponential_downtime (downtime steps : ℕ) : List ℕ :=
  if steps ≤ 1 then [downtime]
  else (List.range steps).map (fun i =>
    max (downtime / steps + 1) (downtime / 2 ^ (steps - 1 - i)))

/-- Embedded from `src/tests/vmmigration_test.py`, `_linear_downtime`
(lines 486–491): the plain linear reference ramp
`max(1, downtime * (i + 1) / steps)` for `i` in `range(steps)`, with exact
(rational) division. -/
def linear_downtime (downtime steps : ℕ) : List ℚ :=
  (List.range steps).map (fun i : ℕ =>
    max 1 (((downtime : ℚ) * ((i : ℚ) + 1)) / (steps : ℚ)))

/-- Key arithmetic fact behind the schedule/linear comparison:
`n ≤ (i + 1) * 2 ^ (n - 1 - i)` whenever `i < n`. -/
lemma le_succ_mul_two_pow (i n : ℕ) (h : i < n) :
    n ≤ (i + 1) * 2 ^ (n - 1 - i) := by
  obtain ⟨j, rfl⟩ : ∃ j, n = i + 1 + j :=
    ⟨n - (i + 1), by omega⟩
  have hj : i + 1 + j - 1 - i = j := by omega
  rw [hj]
  clear h hj
  induction j with
  | zero => simp
  | succ k ih =>
    have h1 : 1 ≤ (i + 1) * 2 ^ k :=
      Nat.one_le_iff_ne_zero.mpr (by positivity)
    have h2 : (i + 1) * 2 ^ (k + 1) = (i + 1) * 2 ^ k + (i + 1) * 2 ^ k := by
      ring
    omega

lemma exponential_downtime_length (d n : ℕ) (hn : 0 < n) :
    (exponential_downtime d n).length = n := by
  unfold exponential_downtime
  split
  · simp; omega
  · simp

lemma exponential_downtime_pos (d n : ℕ) (hd : 0 < d) :
    ∀ v ∈ exponential_downtime d n, 0 < v := by
  intro v hv
  unfold exponential_downtime at hv
  split at hv
  · simp at hv; omega
  · simp only [List.mem_map, List.mem_range] at hv
    obtain ⟨i, _, rfl⟩ := hv
    have : 0 < d / n + 1 := Nat.succ_pos _
    exact lt_of_lt_of_le this (le_max_left _ _)

lemma exponential_downtime_chain (d n : ℕ) :
    (exponential_downtime d n).Chain' (· ≤ ·) := by
  unfold exponential_downtime
  split
  · simp
  · apply List.Pairwise.chain'
    rw [List.pairwise_map]
    refine (List.pairwise_lt_range n).imp ?_
    intro a b hab
    apply max_le_max le_rfl
    apply Nat.div_le_div_left
    · exact Nat.pow_le_pow_right (by norm_num) (by omega)
    · exact Nat.pos_pow_of_pos _ (by norm_num)

lemma exponential_downtime_getLast (d n : ℕ) (hd : 0 < d) :
    (exponential_downtime d n).getLast? = some d := by
  unfold exponential_downtime
  split
  · simp
  · rename_i hn2
    have hlen : ((List.range n).map (fun i =>
        max (d / n + 1) (d / 2 ^ (n - 1 - i)))).length = n := by simp
    rw [List.getLast?_eq_getElem?, hlen]
    have hsub : n - 1 < n := by omega
    rw [List.getElem?_map, List.getElem?_range hsub]
    simp only [Option.map_some']
    have h1 : n - 1 - (n - 1) = 0 := by omega
    rw [h1]
    simp only [pow_zero, Nat.div_one]
    have h2 : d / n + 1 ≤ d := by
      have := Nat.div_lt_self hd (by omega : 1 < n)
      omega
    rw [max_eq_right h2]

lemma sched_avg_le_linear (d n i : ℕ) (hnd : n ≤ d) (hi : 1 ≤ i) :
    n * (d / n + 1) ≤ d * (i + 1) := by
  have h1 : n * (d / n) ≤ d := Nat.mul_div_le d n
  have h2 : n ≤ d * i := le_trans hnd (Nat.le_mul_of_pos_right d hi)
  calc n * (d / n + 1) = n * (d / n) + n := by ring
    _ ≤ d + d * i := Nat.add_le_add h1 h2
    _ = d * (i + 1) := by ring

lemma sched_geo_le_linear (d n i : ℕ) (hin : i < n) :
    n * (d / 2 ^ (n - 1 - i)) ≤ d * (i + 1) := by
  have hkey := le_succ_mul_two_pow i n hin
  calc n * (d / 2 ^ (n - 1 - i))
      ≤ ((i + 1) * 2 ^ (n - 1 - i)) * (d / 2 ^ (n - 1 - i)) :=
        Nat.mul_le_mul_right _ hkey
    _ = (i + 1) * (d / 2 ^ (n - 1 - i) * 2 ^ (n - 1 - i)) := by ring
    _ ≤ (i + 1) * d := Nat.mul_le_mul_left _ (Nat.div_mul_le_self _ _)
    _ = d * (i + 1) := by ring

/-- Casting helper: a natural bound `n * a ≤ d * (i + 1)` gives the rational
bound `a ≤ d * (i + 1) / n`. -/
lemma nat_bound_to_rat (a d n i : ℕ) (hn : 0 < n)
    (h : n * a ≤ d * (i + 1)) :
    (a : ℚ) ≤ ((d : ℚ) * (i + 1)) / n := by
  rw [le_div_iff₀ (by exact_mod_cast hn)]
  calc (a : ℚ) * n = ((n * a : ℕ) : ℚ) := by push_cast; ring
    _ ≤ ((d * (i + 1) : ℕ) : ℚ) := by exact_mod_cast h
    _ = (d : ℚ) * (i + 1) := by push_cast; ring

lemma exponential_first_value (d n : ℕ) (hn : 2 ≤ n) :
    max (d / n + 1) (d / 2 ^ (n - 1 - 0)) = d / n + 1 := by
  apply max_eq_left
  have h1 : n ≤ 2 ^ (n - 1 - 0) := by
    have := le_succ_mul_two_pow 0 n (by omega)
    simpa using this
  exact le_trans (Nat.div_le_div_left h1 (by omega)) (Nat.le_succ _)

/-- Claim C1: For every `steps ∈ {1,2,10}` and every positive `downtimeTarget`,
the generated downtime schedule (`exponential_downtime`, the values the
downtime thread applies to the hypervisor handle) has exactly `steps`
values, every value is strictly greater than 0, the values are
non-decreasing, and the last value equals `downtimeTarget`. -/
theorem downtime_schedule_spec (d n : ℕ) (hd : 0 < d)
    (hn : n = 1 ∨ n = 2 ∨ n = 10) :
    (exponential_downtime d n).length = n ∧
    (∀ v ∈ exponential_downtime d n, 0 < v) ∧
    (exponential_downtime d n).Chain' (· ≤ ·) ∧
    (exponential_downtime d n).getLast? = some d :=
  ⟨exponential_downtime_length d n (by omega),
   exponential_downtime_pos d n hd,
   exponential_downtime_chain d n,
   exponential_downtime_getLast d n hd⟩

theorem downtime_schedule_spec_witness :
    0 < 1000 ∧ ((10 : ℕ) = 1 ∨ (10 : ℕ) = 2 ∨ (10 : ℕ) = 10) ∧
    ((exponential_downtime 1000 10).length = 10 ∧
     (∀ v ∈ exponential_downtime 1000 10, 0 < v) ∧
     (exponential_downtime 1000 10).Chain' (· ≤ ·) ∧
     (exponential_downtime 1000 10).getLast? = some 1000) :=
  ⟨by decide, by decide, downtime_schedule_spec 1000 10 (by decide) (by decide)⟩

/-- Claim C2: For every positive `downtimeTarget` and `steps`, comparing the
geometric downtime schedule to the plain linear ramp: the first geometric
value differs from the first linear value by at most
`max 1 ((downtimeTarget / steps) / 10)`, and every geometric value after the
first is at most the linear value at the same index. -/
theorem downtime_schedule_vs_linear (d n : ℕ) (hd : 0 < d) (hn : 0 < n) :
    (∀ (i a : ℕ) (b : ℚ), 1 ≤ i →
      (exponential_downtime d n)[i]? = some a →
      (linear_downtime d n)[i]? = some b → (a : ℚ) ≤ b) ∧
    (∀ (a : ℕ) (b : ℚ),
      (exponential_downtime d n)[0]? = some a →
      (linear_downtime d n)[0]? = some b →
      |(a : ℚ) - b| ≤ max 1 (((d : ℚ) / n) / 10)) := by
  have hnq : (0 : ℚ) < n := by exact_mod_cast hn
  by_cases hn1 : n ≤ 1
  · have hn1' : n = 1 := by omega
    subst hn1'
    constructor
    · intro i a b hi ha hb
      rw [show exponential_downtime d 1 = [d] from rfl] at ha
      rcases i with _ | i
      · omega
      · rw [List.getElem?_cons_succ] at ha
        simp at ha
    · intro a b ha hb
      rw [show exponential_downtime d 1 = [d] from rfl] at ha
      simp only [List.getElem?_cons_zero, Option.some.injEq] at ha
      have hlin : linear_downtime d 1
          = [max 1 (((d : ℚ) * (((0 : ℕ) : ℚ) + 1)) / ((1 : ℕ) : ℚ))] := by
        simp [linear_downtime, List.range_succ]
      rw [hlin] at hb
      simp only [List.getElem?_cons_zero, Option.some.injEq] at hb
      subst ha
      have hb' : b = (d : ℚ) := by
        rw [← hb, max_eq_right]
        · norm_num
        · norm_num
          exact_mod_cast hd
      subst hb'
      simp
  · -- n ≥ 2
    have hn2 : 2 ≤ n := by omega
    have hexp : exponential_downtime d n = (List.range n).map (fun i =>
        max (d / n + 1) (d / 2 ^ (n - 1 - i))) := by
      unfold exponential_downtime
      rw [if_neg hn1]
    constructor
    · intro i a b hi ha hb
      have hilen : i < n := by
        by_contra hcon
        rw [hexp, List.getElem?_eq_none (by simpa using (by omega : n ≤ i))]
          at ha
        exact Option.noConfusion ha
      rw [hexp, List.getElem?_map, List.getElem?_range hilen,
        Option.map_some'] at ha
      rw [linear_downtime, List.getElem?_map, List.getElem?_range hilen,
        Option.map_some'] at hb
      obtain rfl := Option.some.inj ha
      obtain rfl := Option.some.inj hb
      push_cast [Nat.cast_max]
      apply max_le
      · by_cases hdn : n ≤ d
        · refine le_max_of_le_right ?_
          have hb1 := nat_bound_to_rat (d / n + 1) d n i hn
            (sched_avg_le_linear d n i hdn hi)
          exact_mod_cast hb1
        · have h0 : d / n = 0 := Nat.div_eq_of_lt (by omega)
          rw [h0]
          simp only [Nat.cast_zero, Nat.cast_one, zero_add]
          exact le_max_left 1 (((d : ℚ) * (i + 1)) / n)
      · refine le_max_of_le_right ?_
        have hb2 := nat_bound_to_rat (d / 2 ^ (n - 1 - i)) d n i hn
          (sched_geo_le_linear d n i hilen)
        exact_mod_cast hb2
    · intro a b ha hb
      rw [hexp, List.getElem?_map, List.getElem?_range hn,
        Option.map_some'] at ha
      rw [linear_downtime, List.getElem?_map, List.getElem?_range hn,
        Option.map_some'] at hb
      obtain rfl := Option.some.inj ha
      obtain rfl := Option.some.inj hb
      rw [exponential_first_value d n hn2]
      have hcast : max 1 (((d : ℚ) * (((0 : ℕ) : ℚ) + 1)) / n)
          = max 1 ((d : ℚ) / n) := by
        norm_num
      rw [hcast]
      refine le_trans ?_ (le_max_left 1 _)
      by_cases hdn : n ≤ d
      · have h1q : (1 : ℚ) ≤ (d : ℚ) / n := by
          rw [le_div_iff₀ hnq, one_mul]
          exact_mod_cast hdn
        rw [max_eq_right h1q]
        have oq_le : ((d / n : ℕ) : ℚ) ≤ (d : ℚ) / n := by
          rw [le_div_iff₀ hnq]
          exact_mod_cast Nat.div_mul_le_self d n
        have le_o1 : (d : ℚ) / n ≤ ((d / n : ℕ) : ℚ) + 1 := by
          rw [div_le_iff₀ hnq]
          have f1 : (n : ℚ) * ((d / n : ℕ) : ℚ) + ((d % n : ℕ) : ℚ)
              = (d : ℚ) := by
            exact_mod_cast Nat.div_add_mod d n
          have f2 : ((d % n : ℕ) : ℚ) < (n : ℚ) := by
            exact_mod_cast Nat.mod_lt d hn
          have f3 : (((d / n : ℕ) : ℚ) + 1) * (n : ℚ)
              = (n : ℚ) * ((d / n : ℕ) : ℚ) + (n : ℚ) := by ring
          linarith
        rw [abs_le]
        constructor
        · push_cast
          linarith
        · push_cast
          linarith
      · have h0 : d / n = 0 := Nat.div_eq_of_lt (by omega)
        have hle1 : (d : ℚ) / n ≤ 1 := by
          rw [div_le_iff₀ hnq, one_mul]
          exact_mod_cast le_of_lt (by omega : d < n)
        rw [h0, max_eq_left hle1]
        norm_num

theorem downtime_schedule_vs_linear_witness :
    0 < 1000 ∧ 0 < 10 ∧ 1 ≤ 1 ∧
    (exponential_downtime 1000 10)[1]? = some 101 ∧
    (linear_downtime 1000 10)[1]? = some 200 ∧
    ((101 : ℕ) : ℚ) ≤ (200 : ℚ) :=
  ⟨by decide, by decide, by decide, by decide,
   by norm_num [linear_downtime, List.range_succ],
   (downtime_schedule_vs_linear 1000 10 (by decide) (by decide)).1
     1 101 200 (by decide) (by decide)
     (by norm_num [linear_downtime, List.range_succ])⟩

/-! ## Coordinator progress (SourceThread) -/

/-- Modelled from the spec: `migration.SourceThread` is not under `src/`.
Spec §3/§4.5: the coordinator's externally visible progress starts at 0 and
each sample updates it via `progress = max(progress, sample)`. -/
def updateProgress (progress sample : ℕ) : ℕ := max progress sample

/-- The sequence of progress values returned by successive `getStat()` calls,
one after each delivered sample, starting from the initial progress 0. -/
def observedProgress (samples : List ℕ) : List ℕ :=
  (samples.scanl updateProgress 0).tail

/-- The coordinator's progress after all samples have been applied. -/
def finalProgress (samples : List ℕ) : ℕ :=
  samples.foldl updateProgress 0

lemma scanl_head? {α β : Type} (f : α → β → α) (b : α) (l : List β) :
    (List.scanl f b l).head? = some b := by
  cases l <;> simp [List.scanl]

lemma chain'_scanl_updateProgress (l : List ℕ) (a : ℕ) :
    (List.scanl updateProgress a l).Chain' (· ≤ ·) := by
  induction l generalizing a with
  | nil => simp [List.scanl]
  | cons x xs ih =>
    rw [List.scanl_cons, List.singleton_append, List.chain'_cons']
    constructor
    · intro y hy
      rw [scanl_head?] at hy
      obtain rfl := Option.some.inj hy
      exact le_max_left a x
    · exact ih (updateProgress a x)

/-- Claim C3: The externally visible progress returned by `getStat()` is
monotonically non-decreasing across any sequence of delivered samples: each
update applies `progress = max(progress, sample)` (so a single update never
lowers the value), the observed sequence is non-decreasing, and the example
samples `[8,15,23,85,81]` yield observed `[8,15,23,85,85]` with final
progress `85 = max(samples)`. -/
theorem progress_not_backwards :
    (∀ p s, p ≤ updateProgress p s) ∧
    (∀ samples : List ℕ, (observedProgress samples).Chain' (· ≤ ·)) ∧
    observedProgress [8, 15, 23, 85, 81] = [8, 15, 23, 85, 85] ∧
    finalProgress [8, 15, 23, 85, 81] = 85 :=
  ⟨fun p s => le_max_left p s,
   fun samples => (chain'_scanl_updateProgress samples 0).tail,
   by decide, by decide⟩

/-! ## Migration-start retry (SourceThread.run against the destination) -/

/-- Embedded from `src/tests/vmmigration_test.py`, `FakeServer`
(lines 298–309): the destination server rejects the first
`initial_failures` migration-create requests and accepts afterwards,
counting every attempt. -/
structure FakeServer where
  initial_failures : ℕ
  attempts : ℕ

/-- Embedded from `FakeServer.migrationCreate`: increment the attempt
counter, succeed (`true`) iff the attempt count now exceeds the induced
initial failures, else reply with the recoverable limit-exceeded error
(`false`). -/
def FakeServer.migrationCreate (s : FakeServer) : FakeServer × Bool :=
  (⟨s.initial_failures, s.attempts + 1⟩,
   decide (s.initial_failures < s.attempts + 1))

/-- Embedded from `src/tests/vmmigration_test.py`, `FakeMigratingDomain`
(lines 312–327): the hypervisor-side domain handle counting
`migrateToURI3` invocations. -/
structure FakeMigratingDomain where
  migrations : ℕ

def FakeMigratingDomain.migrateToURI3 (d : FakeMigratingDomain) :
    FakeMigratingDomain :=
  ⟨d.migrations + 1⟩

/-- Modelled from the spec: `SourceThread.run` is not under `src/`.
Spec §4.4/§7: on a recoverable `MigrationLimitExceeded` rejection the
coordinator sleeps the (possibly zero) retry interval and attempts again,
indefinitely, until success; on success it performs the single
hypervisor-side migration (`migrateToURI3`). -/
def runMigration (s : FakeServer) (dom : FakeMigratingDomain) :
    FakeServer × FakeMigratingDomain :=
  if (s.migrationCreate).2 then ((s.migrationCreate).1, dom.migrateToURI3)
  else runMigration (s.migrationCreate).1 dom
termination_by s.initial_failures + 1 - s.attempts
decreasing_by
  rename_i h
  simp only [FakeServer.migrationCreate, decide_eq_true_eq] at h ⊢
  omega

lemma runMigration_eq (N m : ℕ) :
    ∀ k a, N - a = k → a ≤ N →
      runMigration ⟨N, a⟩ ⟨m⟩ = (⟨N, N + 1⟩, ⟨m + 1⟩) := by
  intro k
  induction k with
  | zero =>
    intro a hk ha
    have haN : a = N := by omega
    subst haN
    unfold runMigration
    simp [FakeServer.migrationCreate, FakeMigratingDomain.migrateToURI3,
      Nat.lt_succ_self]
  | succ k ih =>
    intro a hk ha
    have ha2 : ¬(N < a + 1) := by omega
    unfold runMigration
    simp only [FakeServer.migrationCreate, ha2, decide_eq_true_eq,
      if_false, decide_eq_false ha2, Bool.false_eq_true, if_neg]
    exact ih (a + 1) (by omega) (by omega)

/-- Claim C4: For every `N ≥ 0`, if the destination rejects the
migration-start request with `MigrationLimitExceeded` exactly `N` times and
then accepts, the coordinator's `run()` performs exactly `N + 1` start
attempts against the destination server and exactly one hypervisor-side
migration invocation (`migrateToURI3` is called exactly once). -/
theorem retry_on_limit_exceeded (N : ℕ) :
    (runMigration ⟨N, 0⟩ ⟨0⟩).1.attempts = N + 1 ∧
    (runMigration ⟨N, 0⟩ ⟨0⟩).2.migrations = 1 := by
  rw [runMigration_eq N 0 N 0 rfl (Nat.zero_le N)]
  exact ⟨rfl, rfl⟩

/-! ## Progress records (Progress.from_job_stats) -/

/-- A hypervisor job-statistics snapshot: a finite map from libvirt stat
field names to integer counters (modelled as an association list, as
delivered by the hypervisor driver). -/
abbrev JobStats := List (String × ℤ)

/-- Remove a field from a job-statistics map (the tests' `del stats[k]`). -/
def removeKey (k : String) (stats : JobStats) : JobStats :=
  stats.filter (fun kv => kv.1 != k)

/-- Modelled from the spec: the `Progress` record of the migration module
(not under `src/`), spec §4.3: required fields are job type, elapsed time,
data total/processed/remaining and memory total/processed/remaining;
optional fields (bandwidth, constant-page count, compression bytes,
dirty-page rate, iteration count, operation type) default when absent. -/
structure Progress where
  job_type : ℤ
  time_elapsed : ℤ
  data_total : ℤ
  data_processed : ℤ
  data_remaining : ℤ
  mem_total : ℤ
  mem_processed : ℤ
  mem_remaining : ℤ
  mem_bps : ℤ
  mem_constant : ℤ
  compression_bytes : ℤ
  dirty_rate : ℤ
  mem_iteration : ℤ
  operation : ℤ
deriving DecidableEq

/-- The required stat fields (spec §4.3), under their libvirt field names as
used by the test suite's stats dictionaries. -/
def requiredKeys : List String :=
  ["type", "time_elapsed", "data_total", "data_processed", "data_remaining",
   "memory_total", "memory_processed", "memory_remaining"]

/-- The optional stat fields (spec §4.3). -/
def optionalKeys : List String :=
  ["memory_bps", "memory_constant", "compression_bytes",
   "memory_dirty_rate", "memory_iteration", "operation"]

/-- Modelled from the spec: `Progress.from_job_stats(stats)` (migration
module not under `src/`): reads the eight required fields, failing with
`MissingField` when any is absent, and defaults each optional field when
absent. -/
def Progress.from_job_stats (stats : JobStats) : Except String Progress :=
  match stats.lookup "type", stats.lookup "time_elapsed",
      stats.lookup "data_total", stats.lookup "data_processed",
      stats.lookup "data_remaining", stats.lookup "memory_total",
      stats.lookup "memory_processed", stats.lookup "memory_remaining" with
  | some t, some te, some dt, some dp, some dr, some mt, some mp, some mr =>
    .ok ⟨t, te, dt, dp, dr, mt, mp, mr,
      (stats.lookup "memory_bps").getD 0,
      (stats.lookup "memory_constant").getD 0,
      (stats.lookup "compression_bytes").getD 0,
      (stats.lookup "memory_dirty_rate").getD 0,
      (stats.lookup "memory_iteration").getD 0,
      (stats.lookup "operation").getD 0⟩
  | _, _, _, _, _, _, _, _ => .error "MissingField"

/-- Modelled from the spec: `percentage` is 0 when data-total is 0,
otherwise `round(100 * (data-total - data-remaining) / data-total)` clamped
to `[0, 100]`. -/
def Progress.percentage (p : Progress) : ℤ :=
  if p.data_total = 0 then 0
  else min 100 (max 0
    (round ((100 * ((p.data_total : ℚ) - (p.data_remaining : ℚ)))
      / (p.data_total : ℚ))))

/-- Modelled from the spec: the human-readable one-line summary
(`Progress.__str__`), rendering elapsed time, percentage and the optional
counters. -/
def Progress.render (p : Progress) : String :=
  "Migration Progress: " ++ toString p.time_elapsed ++ " seconds elapsed, "
    ++ toString p.percentage ++ "% of data processed, "
    ++ toString p.mem_constant ++ " constant pages, "
    ++ toString p.compression_bytes ++ " compressed bytes, "
    ++ toString p.mem_bps ++ " bps memory bandwidth, "
    ++ toString p.dirty_rate ++ " pages dirtied per second, "
    ++ toString p.mem_iteration ++ " memory iterations"

/-- The test suite's baseline stats dictionary (`TestProgress.setUp`),
parametrised by data-total and data-remaining as in `test_percentage`. -/
def test_job_stats (total remaining : ℤ) : JobStats :=
  [("type", 2), ("time_elapsed", 42), ("data_total", total),
   ("data_processed", 0), ("data_remaining", remaining),
   ("memory_total", 1024), ("memory_processed", 512),
   ("memory_remaining", 512), ("memory_bps", 128), ("memory_constant", 0),
   ("compression_bytes", 0), ("memory_dirty_rate", 2),
   ("memory_iteration", 0)]

lemma from_job_stats_test (total remaining : ℤ) :
    Progress.from_job_stats (test_job_stats total remaining)
      = .ok ⟨2, 42, total, 0, remaining, 1024, 512, 512, 128, 0, 0, 2, 0, 0⟩ :=
  rfl

/-- Claim C5: `Progress.from_job_stats` computes the percentage as 0 when
data-total is 0, otherwise `round(100 * (total - remaining) / total)`
clamped to `[0,100]`; in particular the seven boundary cases of the test
suite: `(0,0)->0`, `(0,100)->100`, `(100,100)->0`, `(50,100)->50`,
`(33,100)->67`, `(1,100)->99`, `(99,100)->1` (written `(remaining,total)`).
-/
theorem percentage_boundary_values :
    (Progress.from_job_stats (test_job_stats 0 0)).toOption.map
      Progress.percentage = some 0 ∧
    (Progress.from_job_stats (test_job_stats 100 0)).toOption.map
      Progress.percentage = some 100 ∧
    (Progress.from_job_stats (test_job_stats 100 100)).toOption.map
      Progress.percentage = some 0 ∧
    (Progress.from_job_stats (test_job_stats 100 50)).toOption.map
      Progress.percentage = some 50 ∧
    (Progress.from_job_stats (test_job_stats 100 33)).toOption.map
      Progress.percentage = some 67 ∧
    (Progress.from_job_stats (test_job_stats 100 1)).toOption.map
      Progress.percentage = some 99 ∧
    (Progress.from_job_stats (test_job_stats 100 99)).toOption.map
      Progress.percentage = some 1 := by
  refine ⟨?_, ?_, ?_, ?_, ?_, ?_, ?_⟩ <;>
  · rw [from_job_stats_test]
    norm_num [Progress.percentage, round_eq, Except.toOption]

lemma from_job_stats_ok_lookup (stats : JobStats) (p : Progress)
    (hok : Progress.from_job_stats stats = .ok p) :
    ∀ k ∈ requiredKeys, (stats.lookup k).isSome := by
  unfold Progress.from_job_stats at hok
  split at hok
  · intro k hk
    fin_cases hk <;> simp_all
  · exact absurd hok (by simp)

/-- Claim C7: For every job-statistics map lacking any one of the required
fields (job type, elapsed time, data-total, data-processed, data-remaining,
memory-total, memory-processed, memory-remaining),
`Progress.from_job_stats` fails with `MissingField` rather than
constructing a record. -/
theorem missing_required_field (stats : JobStats) (k : String)
    (hk : k ∈ requiredKeys) (h : stats.lookup k = none) :
    Progress.from_job_stats stats = .error "MissingField" := by
  cases hres : Progress.from_job_stats stats with
  | ok p =>
    have hsome := from_job_stats_ok_lookup stats p hres k hk
    rw [h] at hsome
    exact absurd hsome (by simp)
  | error e =>
    unfold Progress.from_job_stats at hres
    split at hres
    · exact absurd hres (by simp)
    · obtain rfl : "MissingField" = e := Except.error.inj hres
      rfl

theorem missing_required_field_witness :
    "data_total" ∈ requiredKeys ∧
    (removeKey "data_total" (test_job_stats 8192 8192)).lookup "data_total"
      = none ∧
    Progress.from_job_stats (removeKey "data_total" (test_job_stats 8192 8192))
      = .error "MissingField" :=
  ⟨by decide, by decide,
   missing_required_field _ "data_total" (by decide) (by decide)⟩

lemma render_length_ne_zero (p : Progress) :
    (Progress.render p).length ≠ 0 := by
  unfold Progress.render
  intro hcon
  simp only [String.length_append] at hcon
  have h20 : "Migration Progress: ".length = 20 := rfl
  rw [h20] at hcon
  omega

/-- Claim C9: For every job-statistics map containing all required fields —
in particular one lacking any of the optional fields (bandwidth,
constant-page count, compression bytes, dirty-page rate, iteration count,
operation type) — `Progress.from_job_stats` still constructs a record, and
rendering that record to its human-readable string summary is a total
operation yielding a non-empty line. -/
theorem optional_fields_not_required (stats : JobStats)
    (h : ∀ k ∈ requiredKeys, (stats.lookup k).isSome) :
    ∃ p, Progress.from_job_stats stats = .ok p ∧
      (Progress.render p).length ≠ 0 := by
  obtain ⟨t, ht⟩ := Option.isSome_iff_exists.mp (h "type" (by decide))
  obtain ⟨te, hte⟩ :=
    Option.isSome_iff_exists.mp (h "time_elapsed" (by decide))
  obtain ⟨dt, hdt⟩ := Option.isSome_iff_exists.mp (h "data_total" (by decide))
  obtain ⟨dp, hdp⟩ :=
    Option.isSome_iff_exists.mp (h "data_processed" (by decide))
  obtain ⟨dr, hdr⟩ :=
    Option.isSome_iff_exists.mp (h "data_remaining" (by decide))
  obtain ⟨mt, hmt⟩ :=
    Option.isSome_iff_exists.mp (h "memory_total" (by decide))
  obtain ⟨mp, hmp⟩ :=
    Option.isSome_iff_exists.mp (h "memory_processed" (by decide))
  obtain ⟨mr, hmr⟩ :=
    Option.isSome_iff_exists.mp (h "memory_remaining" (by decide))
  refine ⟨⟨t, te, dt, dp, dr, mt, mp, mr,
    (stats.lookup "memory_bps").getD 0,
    (stats.lookup "memory_constant").getD 0,
    (stats.lookup "compression_bytes").getD 0,
    (stats.lookup "memory_dirty_rate").getD 0,
    (stats.lookup "memory_iteration").getD 0,
    (stats.lookup "operation").getD 0⟩, ?_, render_length_ne_zero _⟩
  unfold Progress.from_job_stats
  rw [ht, hte, hdt, hdp, hdr, hmt, hmp, hmr]

theorem optional_fields_not_required_witness :
    (∀ k ∈ requiredKeys,
      ((removeKey "memory_bps" (test_job_stats 8192 8192)).lookup k).isSome) ∧
    ∃ p, Progress.from_job_stats
        (removeKey "memory_bps" (test_job_stats 8192 8192)) = .ok p ∧
      (Progress.render p).length ≠ 0 :=
  ⟨by decide, optional_fields_not_required _ (by decide)⟩

/-! ## Post-copy status reporting -/

/-- The VM statuses relevant to post-copy reporting (`vdsm.virt.vmstatus`).
-/
inductive VmStatus where
  | up
  | down
  | waitForLaunch
  | migrationSource
  | paused
deriving DecidableEq

/-- The post-copy phase marker (`migration.PostCopyPhase`): `NONE` before
post-copy, `RUNNING` once the hypervisor has signalled the hand-over. -/
inductive PostCopyPhase where
  | none
  | running
deriving DecidableEq

/-- The slice of VM state that decides the externally reported status. -/
structure VmState where
  lastStatus : VmStatus
  post_copy : PostCopyPhase

/-- Modelled from the spec: the status field computed by the VM's
`getStats()` (the VM module is not under `src/`).  Spec §4.5: while the
migration is in post-copy (`postCopyPhase = Running`) and the VM's internal
status is the migration-source status, the externally reported status is
`Paused` rather than the normal running status. -/
def reportedStatus (s : VmState) : VmStatus :=
  if s.lastStatus = VmStatus.migrationSource
      ∧ s.post_copy = PostCopyPhase.running then
    VmStatus.paused
  else
    s.lastStatus

/-- Claim C6: For every VM whose migration has entered the post-copy phase
(`postCopyPhase = Running`) while its internal status is the
migration-source status, the externally reported status from `getStats()`
is `Paused` (and in particular differs from the internal running status). -/
theorem post_copy_status (s : VmState)
    (h1 : s.lastStatus = VmStatus.migrationSource)
    (h2 : s.post_copy = PostCopyPhase.running) :
    reportedStatus s = VmStatus.paused
      ∧ reportedStatus s ≠ s.lastStatus := by
  unfold reportedStatus
  rw [if_pos ⟨h1, h2⟩, h1]
  exact ⟨rfl, by intro hcon; exact VmStatus.noConfusion hcon⟩

theorem post_copy_status_witness :
    (VmState.mk VmStatus.migrationSource PostCopyPhase.running).lastStatus
      = VmStatus.migrationSource ∧
    (VmState.mk VmStatus.migrationSource PostCopyPhase.running).post_copy
      = PostCopyPhase.running ∧
    (reportedStatus
        (VmState.mk VmStatus.migrationSource PostCopyPhase.running)
      = VmStatus.paused ∧
     reportedStatus
        (VmState.mk VmStatus.migrationSource PostCopyPhase.running)
      ≠ (VmState.mk VmStatus.migrationSource PostCopyPhase.running).lastStatus) :=
  ⟨rfl, rfl, post_copy_status _ rfl rfl⟩

/-! ## The migration-parameters scope -/

/-- The key under which migration parameters are stored in the VM's job
record (`conf`). -/
def migParamsKey : String := "_migrationParams"

/-- Embedded from `src/tests/vmmigration_test.py`, `FakeVM.migration_parameters`
(lines 343–349): a scope that stores `params` under `conf['_migrationParams']`
on entry, runs its body, and deletes the key again in a `finally` block, so
the deletion happens on every exit path, error or not.  The job record is an
association list (insertion shadows, deletion removes the key); the body may
mutate the record and may fail, which is modelled by returning an optional
error alongside the resulting record. -/
def migration_parameters {V E : Type} (params : V)
    (body : List (String × V) → Option E × List (String × V))
    (conf : List (String × V)) : Option E × List (String × V) :=
  let entered := (migParamsKey, params) :: conf
  let r := body entered
  (r.1, r.2.filter (fun kv => kv.1 != migParamsKey))

lemma lookup_filter_ne_none {V : Type} (l : List (String × V)) (k : String) :
    (l.filter (fun kv => kv.1 != k)).lookup k = none := by
  rw [List.lookup_eq_none_iff]
  intro p hp
  have hne := (List.mem_filter.mp hp).2
  simpa [bne_iff_ne, ne_comm] using hne

/-- Claim C8: The VM-side migration parameters scope stores the given params
under the job record's `_migrationParams` key for the duration of the scope
(a lookup inside the scope yields them), and removes that key on every exit
path — for every body, failing or not, the key is absent from the record
after the scope exits. -/
theorem migration_params_scope {V E : Type} (params : V)
    (body : List (String × V) → Option E × List (String × V))
    (conf : List (String × V)) :
    ((migParamsKey, params) :: conf).lookup migParamsKey = some params ∧
    (migration_parameters params body conf).2.lookup migParamsKey = none := by
  constructor
  · simp [List.lookup_cons]
  · exact lookup_filter_ne_none _ _

/-! ## Address canonicalization -/

/-- Split a character list at every colon (auxiliary for recognizing the
`"host:port"` shape). -/
def splitColon : List Char → List (List Char)
  | [] => [[]]
  | c :: rest =>
    let r := splitColon rest
    if c = ':' then [] :: r
    else
      match r with
      | [] => [[c]]
      | h :: t => (c :: h) :: t

/-- A host string already carries an embedded port in `"host:port"` form
when it splits at a single colon into a non-empty address part and a
non-empty all-digit port part (an IPv6 literal, having more than one colon,
never matches). -/
def hasEmbeddedPort (h : String) : Bool :=
  match splitColon h.data with
  | [addr, port] =>
    !addr.isEmpty && !port.isEmpty && port.all (fun c => c.isDigit)
  | _ => false

/-- Modelled from the spec: `migration._cannonize_host_port(host, port)` is
not under `src/`.  Spec §4.1: an omitted host resolves to the local
address; an omitted port defaults to the management port; a host already
containing an embedded port in `"host:port"` form, with no separate port
argument, is returned unchanged; IPv6 literals render bracketed
`"[addr]:port"`; other hosts render `"host:port"`. -/
def cannonize_host_port (host : Option String) (port : Option ℕ) : String :=
  let p := port.getD 54321
  match host with
  | none => "localhost:" ++ toString p
  | some h =>
    if hasEmbeddedPort h && port.isNone then h
    else if h.contains ':' then "[" ++ h ++ "]:" ++ toString p
    else h ++ ":" ++ toString p

/-- Claim C10: For every host string that already embeds a port in
`"host:port"` form, address canonicalization with that host and no separate
port argument returns the input string unchanged (idempotent
pass-through). -/
theorem cannonize_pass_through (h : String)
    (hp : hasEmbeddedPort h = true) :
    cannonize_host_port (some h) none = h := by
  unfold cannonize_host_port
  simp [hp]

theorem cannonize_pass_through_witness :
    hasEmbeddedPort "127.0.0.1:65432" = true ∧
    cannonize_host_port (some "127.0.0.1:65432") none = "127.0.0.1:65432" :=
  ⟨by decide, cannonize_pass_through "127.0.0.1:65432" (by decide)⟩
